import Mathlib

/-!
Verification development for the pentagon fiducial-marker detector
(`marker_detector.py`): a shallow embedding of the integer Bresenham line
generator, the concave-corner resolver and the ring decoder, together with
theorems settling the specification claims about them.

Modelling conventions:
* pixel coordinates are integers (`Int`), exactly as in the source;
* the source's floating-point values appear only in comparisons or in
  integer truncations whose results are exact at pixel scale, and are
  embedded by the equivalent exact integer computation (each such place is
  noted next to the definition);
* fallible steps (out-of-range list indexing, a `range` with zero step,
  parsing an empty bit string) are embedded with explicit error results.
-/

namespace MarkerDetector

abbrev Point := Int × Int

/-- Squared Euclidean distance between two points.  `computeDistance` in the
source returns the float square root and is only ever compared with the
constant `80.0`; the comparison `computeDistance p q < 80` is exactly
`sqDist p q < 6400`, which is how the short-edge test is embedded below. -/
def sqDist (p q : Point) : Int :=
  (q.1 - p.1) ^ 2 + (q.2 - p.2) ^ 2

/-! ### Bresenham line generator

Embedding of `bresenhamLineGenerator(x0, y0, x1, y1)`.  The source computes
`slope = dy / dx if dx != 0 else 10.0` and uses it only in the comparisons
`slope >= 1.0`, `slope > 1.0`, `slope < 1.0`; with `dx, dy` nonnegative
integers these are exactly `dx = 0 ∨ dx ≤ dy`, `dx = 0 ∨ dx < dy` and
`dx ≠ 0 ∧ dy < dx`, which is how they are embedded. -/

/-- One iteration of the generator's emission loop, acting on the state
`(x, y, p)`: the minor-axis variable steps by `xStep` when the decision
variable `p` is nonnegative, the major-axis variable always steps by
`yStep`, and `p` is updated by `2*dx - 2*dy*|x' - x|` exactly as in the
source (`xPrevious` is the value of `x` before the conditional step). -/
def bresStep (dx dy : Nat) (xStep yStep : Int) (s : Int × Int × Int) :
    Int × Int × Int :=
  let x2 : Int := if 0 ≤ s.2.2 then s.1 + xStep else s.1
  (x2, s.2.1 + yStep, s.2.2 + 2 * (dx : Int) - 2 * (dy : Int) * ((x2 - s.1).natAbs : Int))

/-- The list of the `n` points emitted by the generator's loop from state
`s`, in order (each iteration appends the updated `(x, y)` pair). -/
def bresSteps (dx dy : Nat) (xStep yStep : Int) : Nat → Int × Int × Int → List (Int × Int)
  | 0, _ => []
  | n + 1, s =>
    let s2 := bresStep dx dy xStep yStep s
    (s2.1, s2.2.1) :: bresSteps dx dy xStep yStep n s2

/-- The state after `n` iterations of the generator's loop. -/
def bresFinal (dx dy : Nat) (xStep yStep : Int) : Nat → Int × Int × Int → Int × Int × Int
  | 0, s => s
  | n + 1, s => bresFinal dx dy xStep yStep n (bresStep dx dy xStep yStep s)

/-- The step applied to the source's `y` variable each iteration:
`-1 if slope >= 1.0 and y0 > y1 else 1`. -/
def bresYStep (x0 y0 x1 y1 : Int) : Int :=
  if ((x1 - x0).natAbs = 0 ∨ (x1 - x0).natAbs ≤ (y1 - y0).natAbs) ∧ y1 < y0 then -1 else 1

/-- The step applied to the source's `x` variable on iterations where the
decision variable is nonnegative:
`-1 if ((x0 > x1 or y0 > y1) and slope < 1.0)
     or (slope > 1.0 and x0 > x1 and y0 > y1)
     or (x0 > x1 and y0 < y1) else 1`. -/
def bresXStep (x0 y0 x1 y1 : Int) : Int :=
  if ((x1 < x0 ∨ y1 < y0) ∧ (¬(x1 - x0).natAbs = 0 ∧ (y1 - y0).natAbs < (x1 - x0).natAbs)) ∨
      (((x1 - x0).natAbs = 0 ∨ (x1 - x0).natAbs < (y1 - y0).natAbs) ∧ x1 < x0 ∧ y1 < y0) ∨
      (x1 < x0 ∧ y0 < y1) then -1 else 1

/-- Embedding of `bresenhamLineGenerator`.  In the `slope < 1` branch the
source swaps `x0, x1, y0, y1 = y0, y1, x0, x1`, recomputes `dx, dy`, runs
the same loop, and appends each pair as `(y, x)` instead of `(x, y)`; this
is modelled by running the loop on the swapped data and mapping
`Prod.swap` over the emitted pairs.  The list always begins with the start
point `(x0, y0)`. -/
def bresenhamLineGenerator (x0 y0 x1 y1 : Int) : List (Int × Int) :=
  if ¬(x1 - x0).natAbs = 0 ∧ (y1 - y0).natAbs < (x1 - x0).natAbs then
    (x0, y0) ::
      (bresSteps (y1 - y0).natAbs (x1 - x0).natAbs (bresXStep x0 y0 x1 y1)
        (bresYStep x0 y0 x1 y1) (x1 - x0).natAbs
        (y0, x0, 2 * ((y1 - y0).natAbs : Int) - ((x1 - x0).natAbs : Int))).map Prod.swap
  else
    (x0, y0) ::
      bresSteps (x1 - x0).natAbs (y1 - y0).natAbs (bresXStep x0 y0 x1 y1)
        (bresYStep x0 y0 x1 y1) (y1 - y0).natAbs
        (x0, y0, 2 * ((x1 - x0).natAbs : Int) - ((y1 - y0).natAbs : Int))

/-! ### Corner resolver

Embedding of the per-polygon corner search in `detectAndLabelMarkers`
(lines 161–238 of the source).  A polygon is a list of vertices; edge `i`
joins vertex `i` to vertex `(i+1) mod len`. -/

/-- First endpoint of edge `e` of the polygon. -/
def edgeFst (poly : List Point) (e : Nat) : Point := poly.getD e (0, 0)

/-- Second endpoint of edge `e` of the polygon (`poly[(e+1) % len]`). -/
def edgeSnd (poly : List Point) (e : Nat) : Point :=
  poly.getD ((e + 1) % poly.length) (0, 0)

/-- Indices of the short edges: `matchingSides` in the source collects every
vertex index whose edge to the next vertex has Euclidean length below 80
(embedded as squared distance below 6400). -/
def matchingSides (poly : List Point) : List Nat :=
  (List.range poly.length).filter fun i => sqDist (edgeFst poly i) (edgeSnd poly i) < 6400

/-- Result of the corner search: a concave corner together with the
midpoint of the lower side, loop exhaustion with no match, or an
out-of-range access into the short-edge list (the source indexes it with
`(loopIndex + 1) % 3` and `(loopIndex + 2) % 3` regardless of its
length, which raises `IndexError` in Python when the list is too short). -/
inductive CornerResult where
  | found : Point → Point → CornerResult
  | noMarker : CornerResult
  | indexError : CornerResult
deriving DecidableEq, Repr

/-- After a corner has been found at `loopIndex`, the source takes the third
short edge `matchingSides[(loopIndex + 2) % 3]` as the lower side and
returns the integer-averaged midpoint of its endpoints (`//` is Python
floor division, embedded as `Int.fdiv`). -/
def finishCorner (poly : List Point) (ms : List Nat) (loopIndex : Nat) (c : Point) :
    CornerResult :=
  match ms.get? ((loopIndex + 2) % 3) with
  | none => .indexError
  | some low =>
    .found c
      (((edgeFst poly low).1 + (edgeSnd poly low).1).fdiv 2,
       ((edgeFst poly low).2 + (edgeSnd poly low).2).fdiv 2)

/-- The corner-search loop: `for loopIndex, side in enumerate(matchingSides)`.
For each current side it fetches the next short edge
`matchingSides[(loopIndex + 1) % 3]` and tests the four exact coordinate
equalities of the source (first point against both endpoints, then second
point against both); the first match fixes the corner and stops the
search. -/
def cornerLoop (poly : List Point) (ms : List Nat) : List Nat → Nat → CornerResult
  | [], _ => .noMarker
  | side :: rest, loopIndex =>
    match ms.get? ((loopIndex + 1) % 3) with
    | none => .indexError
    | some nxt =>
      if edgeFst poly side = edgeFst poly nxt ∨ edgeFst poly side = edgeSnd poly nxt then
        finishCorner poly ms loopIndex (edgeFst poly side)
      else if edgeSnd poly side = edgeFst poly nxt ∨ edgeSnd poly side = edgeSnd poly nxt then
        finishCorner poly ms loopIndex (edgeSnd poly side)
      else
        cornerLoop poly ms rest (loopIndex + 1)

/-- Corner resolution for one polygon. -/
def resolveCorner (poly : List Point) : CornerResult :=
  cornerLoop poly (matchingSides poly) (matchingSides poly) 0

/-! ### Ring decoder

Embedding of the sampling-and-decoding loop (lines 239–285 of the source).
The grayscale frame is modelled as a total intensity function on points. -/

/-- Sampling stride: `int(markerAxisLen / 10 * 1.95)`.  At pixel scale the
float computation truncates to exactly `⌊39·L/200⌋`, embedded as natural
division. -/
def cycleJump (L : Nat) : Nat := 39 * L / 200

/-- Warp correction applied to a sample-centre index before lookup:
`int(tempIndex * 0.85)` for `actCycle` in `[1, 2, 3, 4]`,
`int(tempIndex * 0.9)` for `actCycle = 0`, and no change otherwise.  The
float truncations are exactly `⌊85·t/100⌋` and `⌊9·t/10⌋` at pixel
scale. -/
def sampleScale (actCycle t : Nat) : Nat :=
  if actCycle = 1 ∨ actCycle = 2 ∨ actCycle = 3 ∨ actCycle = 4 then 85 * t / 100
  else if actCycle = 0 then 9 * t / 10
  else t

/-- Failure modes of the decoding step: `range(c, L, c)` with `c = 0`
raises `ValueError` (zero step), `int("", 2)` raises `ValueError` (empty
bit string), and an out-of-range path lookup raises `IndexError`. -/
inductive DecodeError where
  | rangeError : DecodeError
  | valueError : DecodeError
  | indexError : DecodeError
deriving DecidableEq, Repr

/-- The sampling loop: walks the list of sample-centre indices, applies the
warp correction, looks up the grayscale intensity at the corrected path
point, and appends bit `0` when the intensity exceeds 180 and bit `1`
otherwise (`actCycle` counts the samples, starting at 0). -/
def ringLoop (gray : Point → Nat) (path : List Point) :
    List Nat → Nat → List Nat → Except DecodeError (List Nat)
  | [], _, acc => .ok acc
  | centre :: rest, actCycle, acc =>
    match path.get? (sampleScale actCycle centre) with
    | none => .error .indexError
    | some pt =>
      ringLoop gray path rest (actCycle + 1)
        (acc ++ [if 180 < gray pt then 0 else 1])

/-- Most-significant-bit-first value of a bit string: `int(s, 2)`. -/
def parseBinary (bits : List Nat) : Nat :=
  bits.foldl (fun a b => 2 * a + b) 0

/-- The sample centres `cycleJump, 2·cycleJump, …` strictly below `L`:
`range(cycleJump, L, cycleJump)`, whose length for a positive stride `c`
is `(L - 1) / c`. -/
def sampleCentres (L c : Nat) : List Nat :=
  (List.range ((L - 1) / c)).map fun k => (k + 1) * c

/-- Ring decoding of one axis path: build the bit string along the path,
reverse it once, and interpret it in base 2.  A zero stride is the Python
`ValueError` of `range` with step 0; an empty bit string is the
`ValueError` of `int("", 2)`. -/
def decodeRing (gray : Point → Nat) (path : List Point) : Except DecodeError Nat :=
  if cycleJump path.length = 0 then .error .rangeError
  else
    match ringLoop gray path (sampleCentres path.length (cycleJump path.length)) 0 [] with
    | .error e => .error e
    | .ok bits =>
      if bits = [] then .error .valueError
      else .ok (parseBinary bits.reverse)

/-- Number of samples the decoding loop takes on a path of length `L`
(meaningful when the stride is positive). -/
def numSamples (L : Nat) : Nat := (L - 1) / cycleJump L

/-! ### Specification-side descriptions

Declarative counterparts of the loops above, written from the
specification's wording, used to state the claims as genuine
loop-versus-closed-form theorems. -/

/-- The pair of short edges examined at step `i` of the corner search
(`matchingSides[i]` against `matchingSides[(i+1) % 3]`) shares an endpoint
under exact coordinate equality. -/
def pairShares (poly : List Point) (ms : List Nat) (i : Nat) : Prop :=
  edgeFst poly (ms.getD i 0) = edgeFst poly (ms.getD ((i + 1) % 3) 0) ∨
  edgeFst poly (ms.getD i 0) = edgeSnd poly (ms.getD ((i + 1) % 3) 0) ∨
  edgeSnd poly (ms.getD i 0) = edgeFst poly (ms.getD ((i + 1) % 3) 0) ∨
  edgeSnd poly (ms.getD i 0) = edgeSnd poly (ms.getD ((i + 1) % 3) 0)

instance (poly : List Point) (ms : List Nat) (i : Nat) :
    Decidable (pairShares poly ms i) := by
  unfold pairShares; infer_instance

/-- The shared point selected at a matching step `i`: the first endpoint of
the current side when it matches either endpoint of the next side,
otherwise the second endpoint. -/
def sharedPoint (poly : List Point) (ms : List Nat) (i : Nat) : Point :=
  if edgeFst poly (ms.getD i 0) = edgeFst poly (ms.getD ((i + 1) % 3) 0) ∨
      edgeFst poly (ms.getD i 0) = edgeSnd poly (ms.getD ((i + 1) % 3) 0) then
    edgeFst poly (ms.getD i 0)
  else
    edgeSnd poly (ms.getD i 0)

/-- Integer-averaged midpoint of the third short edge, the one two
positions ahead of step `i` in the cyclic short-edge list. -/
def thirdMid (poly : List Point) (ms : List Nat) (i : Nat) : Point :=
  (((edgeFst poly (ms.getD ((i + 2) % 3) 0)).1 + (edgeSnd poly (ms.getD ((i + 2) % 3) 0)).1).fdiv 2,
   ((edgeFst poly (ms.getD ((i + 2) % 3) 0)).2 + (edgeSnd poly (ms.getD ((i + 2) % 3) 0)).2).fdiv 2)

/-- The bit sampled at position `k` along the path, in sampling order: bit
`0` exactly when the grayscale intensity at the warp-corrected sample
point exceeds 180, bit `1` otherwise. -/
def specBit (gray : Point → Nat) (path : List Point) (k : Nat) : Nat :=
  if 180 < gray (path.getD (sampleScale k ((k + 1) * cycleJump path.length)) (0, 0)) then 0
  else 1

/-- The full sampled bit string of a path, in sampling order. -/
def specBits (gray : Point → Nat) (path : List Point) : List Nat :=
  (List.range (numSamples path.length)).map (specBit gray path)

/-- No two distinct short edges of the polygon share an endpoint (exact
coordinate equality on any endpoint pairing). -/
def noSharedVertex (poly : List Point) : Prop :=
  ∀ a ∈ matchingSides poly, ∀ b ∈ matchingSides poly, a ≠ b →
    edgeFst poly a ≠ edgeFst poly b ∧ edgeFst poly a ≠ edgeSnd poly b ∧
    edgeSnd poly a ≠ edgeFst poly b ∧ edgeSnd poly a ≠ edgeSnd poly b

instance (poly : List Point) : Decidable (noSharedVertex poly) := by
  unfold noSharedVertex; infer_instance

/-- Reference offset derived from a decoded identifier: the source computes
`radAngle = radians(-15)` and then `(cos(radAngle*n)*70, sin(radAngle*n)*70)`;
floating-point cosine and sine are modelled by the real functions. -/
noncomputable def refOffset (n : Nat) : ℝ × ℝ :=
  (Real.cos (-15 * Real.pi / 180 * n) * 70, Real.sin (-15 * Real.pi / 180 * n) * 70)

/-- Offset as the specification words it: angle `-15° × identifier` taken
in degrees, radius 70. -/
noncomputable def specOffset (n : Nat) : ℝ × ℝ :=
  (Real.cos ((-15 * n : ℝ) * Real.pi / 180) * 70,
   Real.sin ((-15 * n : ℝ) * Real.pi / 180) * 70)

/-- Two points are 8-connected: they differ by at most 1 in each
coordinate. -/
def adj8 (p q : Point) : Prop :=
  (q.1 - p.1).natAbs ≤ 1 ∧ (q.2 - p.2).natAbs ≤ 1

instance : DecidableRel adj8 := fun p q => by
  unfold adj8; infer_instance

/-! ### Lemmas about the rasterizer loop -/

lemma bresSteps_length (dx dy : Nat) (xs ys : Int) :
    ∀ (n : Nat) (s : Int × Int × Int), (bresSteps dx dy xs ys n s).length = n
  | 0, _ => rfl
  | n + 1, s => by
    simp only [bresSteps, List.length_cons, bresSteps_length dx dy xs ys n]

lemma bresSteps_getLast? (dx dy : Nat) (xs ys : Int) :
    ∀ (n : Nat) (s : Int × Int × Int),
      ((s.1, s.2.1) :: bresSteps dx dy xs ys n s).getLast? =
        some ((bresFinal dx dy xs ys n s).1, (bresFinal dx dy xs ys n s).2.1)
  | 0, _ => rfl
  | n + 1, s => by
    rw [bresSteps, List.getLast?_cons_cons]
    exact bresSteps_getLast? dx dy xs ys n (bresStep dx dy xs ys s)

lemma bresFinal_y (dx dy : Nat) (xs ys : Int) :
    ∀ (n : Nat) (s : Int × Int × Int),
      (bresFinal dx dy xs ys n s).2.1 = s.2.1 + n * ys
  | 0, _ => by simp [bresFinal]
  | n + 1, s => by
    rw [bresFinal, bresFinal_y dx dy xs ys n (bresStep dx dy xs ys s)]
    show (bresStep dx dy xs ys s).2.1 + (n : Int) * ys = s.2.1 + ((n : Nat) + 1 : Nat) * ys
    simp only [bresStep]
    push_cast
    ring

lemma bresSteps_chain (dx dy : Nat) (xs ys : Int)
    (hx : xs = 1 ∨ xs = -1) (hy : ys = 1 ∨ ys = -1) :
    ∀ (n : Nat) (s : Int × Int × Int),
      List.Chain' adj8 ((s.1, s.2.1) :: bresSteps dx dy xs ys n s)
  | 0, _ => List.chain'_singleton _
  | n + 1, s => by
    rw [bresSteps]
    rw [List.chain'_cons]
    refine ⟨?_, bresSteps_chain dx dy xs ys hx hy n (bresStep dx dy xs ys s)⟩
    constructor
    · show ((bresStep dx dy xs ys s).1 - s.1).natAbs ≤ 1
      simp only [bresStep]
      split
      · rcases hx with h | h <;> simp [h]
      · simp
    · show ((bresStep dx dy xs ys s).2.1 - s.2.1).natAbs ≤ 1
      simp only [bresStep]
      rcases hy with h | h <;> simp [h]

/-- Loop invariant for the decision variable: starting from `p₀ = 2m - N`
with `m ≤ N`, the decision variable stays in `[2m - 2N, 2m - 1]`, the
minor-axis variable advances by `xs` exactly once per nonnegative `p`, and
after `n` iterations it has advanced `s` times with
`p = p₀ + 2mn - 2Ns`. -/
lemma bresFinal_inv (m N : Nat) (xs ys : Int)
    (hx : xs = 1 ∨ xs = -1) (hmN : m ≤ N) :
    ∀ (n : Nat) (x y p : Int),
      2 * (m : Int) - 2 * N ≤ p → p ≤ 2 * (m : Int) - 1 →
      ∃ s : Nat, s ≤ n ∧
        (bresFinal m N xs ys n (x, y, p)).1 = x + xs * s ∧
        (bresFinal m N xs ys n (x, y, p)).2.2 = p + 2 * (m : Int) * n - 2 * (N : Int) * s ∧
        2 * (m : Int) - 2 * N ≤ (bresFinal m N xs ys n (x, y, p)).2.2 ∧
        (bresFinal m N xs ys n (x, y, p)).2.2 ≤ 2 * (m : Int) - 1
  | 0, x, y, p, hlo, hhi => ⟨0, le_refl 0, by simp [bresFinal], by simp [bresFinal], by
      simpa [bresFinal] using hlo, by simpa [bresFinal] using hhi⟩
  | n + 1, x, y, p, hlo, hhi => by
    have hxabs : ((xs.natAbs : Nat) : Int) = 1 := by
      rcases hx with h | h <;> simp [h]
    by_cases hp : 0 ≤ p
    · have hstep : bresStep m N xs ys (x, y, p) =
          (x + xs, y + ys, p + 2 * (m : Int) - 2 * N) := by
        simp only [bresStep, if_pos hp]
        have : (x + xs - x).natAbs = xs.natAbs := by
          congr 1
          ring
        rw [this]
        refine Prod.ext rfl (Prod.ext rfl ?_)
        simp only []
        rw [hxabs]
        ring
      have hlo' : 2 * (m : Int) - 2 * N ≤ p + 2 * (m : Int) - 2 * N := by omega
      have hhi' : p + 2 * (m : Int) - 2 * N ≤ 2 * (m : Int) - 1 := by omega
      obtain ⟨s, hsn, h1, h2, h3, h4⟩ :=
        bresFinal_inv m N xs ys hx hmN n (x + xs) (y + ys)
          (p + 2 * (m : Int) - 2 * N) hlo' hhi'
      refine ⟨s + 1, by omega, ?_, ?_, ?_, ?_⟩
      · rw [bresFinal, hstep, h1]
        push_cast
        ring
      · rw [bresFinal, hstep, h2]
        push_cast
        ring
      · rw [bresFinal, hstep]
        exact h3
      · rw [bresFinal, hstep]
        exact h4
    · have hstep : bresStep m N xs ys (x, y, p) = (x, y + ys, p + 2 * (m : Int)) := by
        simp only [bresStep, if_neg hp]
        refine Prod.ext rfl (Prod.ext rfl ?_)
        simp only []
        rw [sub_self]
        simp
      have hlo' : 2 * (m : Int) - 2 * N ≤ p + 2 * (m : Int) := by omega
      have hhi' : p + 2 * (m : Int) ≤ 2 * (m : Int) - 1 := by omega
      obtain ⟨s, hsn, h1, h2, h3, h4⟩ :=
        bresFinal_inv m N xs ys hx hmN n x (y + ys) (p + 2 * (m : Int)) hlo' hhi'
      refine ⟨s, by omega, ?_, ?_, ?_, ?_⟩
      · rw [bresFinal, hstep, h1]
      · rw [bresFinal, hstep, h2]
        push_cast
        ring
      · rw [bresFinal, hstep]
        exact h3
      · rw [bresFinal, hstep]
        exact h4

/-- After exactly `N` iterations from `p₀ = 2m - N` the minor-axis
variable has advanced exactly `m` times. -/
lemma bresFinal_x (m N : Nat) (xs ys : Int)
    (hx : xs = 1 ∨ xs = -1) (hmN : m ≤ N) (hN : 1 ≤ N) (x y : Int) :
    (bresFinal m N xs ys N (x, y, 2 * (m : Int) - (N : Int))).1 = x + xs * m := by
  obtain ⟨s, hsN, h1, h2, h3, h4⟩ :=
    bresFinal_inv m N xs ys hx hmN N x y (2 * (m : Int) - (N : Int))
      (by omega) (by omega)
  have hNs : (2 * (N : Int)) * ((m : Int) - s) = 2 * (m : Int) * N - 2 * (N : Int) * s := by
    ring
  have hbound1 : -(N : Int) ≤ 2 * (N : Int) * ((m : Int) - s) := by
    rw [hNs]; omega
  have hbound2 : 2 * (N : Int) * ((m : Int) - s) ≤ (N : Int) - 1 := by
    rw [hNs]; omega
  have hd : (m : Int) - s = 0 := by
    rcases lt_trichotomy ((m : Int) - s) 0 with h | h | h
    · have h1' : (m : Int) - s ≤ -1 := by omega
      have := mul_le_mul_of_nonneg_left h1' (by positivity : (0 : Int) ≤ 2 * N)
      have hN' : (1 : Int) ≤ N := by exact_mod_cast hN
      nlinarith
    · exact h
    · have h1' : (1 : Int) ≤ (m : Int) - s := by omega
      have := mul_le_mul_of_nonneg_left h1' (by positivity : (0 : Int) ≤ 2 * N)
      have hN' : (1 : Int) ≤ N := by exact_mod_cast hN
      nlinarith
  have hsm : (s : Int) = m := by omega
  rw [h1, hsm]

/-- The loop on a degenerate minor axis (`dx = 0`) with a negative decision
variable never moves the minor-axis variable: it produces a straight run. -/
lemma bresSteps_vertical (dy : Nat) (xs ys : Int) :
    ∀ (n : Nat) (x y p : Int), p < 0 →
      bresSteps 0 dy xs ys n (x, y, p) =
        (List.range n).map fun (k : Nat) => (x, y + ((k : Int) + 1) * ys)
  | 0, _, _, _, _ => by simp [bresSteps]
  | n + 1, x, y, p, hp => by
    have hstep : bresStep 0 dy xs ys (x, y, p) = (x, y + ys, p) := by
      simp only [bresStep, if_neg (not_le.mpr hp)]
      refine Prod.ext rfl (Prod.ext rfl ?_)
      simp only []
      rw [sub_self]
      simp
    rw [bresSteps, hstep, bresSteps_vertical dy xs ys n x (y + ys) p hp]
    rw [List.range_succ_eq_map, List.map_cons, List.map_map]
    refine congrArg₂ _ (by simp) ?_
    refine List.map_congr_left fun k _ => ?_
    simp only [Function.comp]
    push_cast
    refine Prod.ext rfl ?_
    simp only []
    ring

lemma bresYStep_pm (x0 y0 x1 y1 : Int) :
    bresYStep x0 y0 x1 y1 = 1 ∨ bresYStep x0 y0 x1 y1 = -1 := by
  unfold bresYStep
  split
  · exact Or.inr rfl
  · exact Or.inl rfl

lemma bresXStep_pm (x0 y0 x1 y1 : Int) :
    bresXStep x0 y0 x1 y1 = 1 ∨ bresXStep x0 y0 x1 y1 = -1 := by
  unfold bresXStep
  split
  · exact Or.inr rfl
  · exact Or.inl rfl

lemma adj8_swap (p q : Point) : adj8 p.swap q.swap ↔ adj8 p q := by
  simp only [adj8, Prod.swap]
  exact and_comm

/-- The generated line is always an 8-connected chain. -/
lemma bresenham_chain (x0 y0 x1 y1 : Int) :
    List.Chain' adj8 (bresenhamLineGenerator x0 y0 x1 y1) := by
  unfold bresenhamLineGenerator
  split
  · have h : ((x0, y0) ::
        (bresSteps (y1 - y0).natAbs (x1 - x0).natAbs (bresXStep x0 y0 x1 y1)
          (bresYStep x0 y0 x1 y1) (x1 - x0).natAbs
          (y0, x0, 2 * ((y1 - y0).natAbs : Int) - ((x1 - x0).natAbs : Int))).map Prod.swap) =
        (((y0, x0) : Point) ::
          bresSteps (y1 - y0).natAbs (x1 - x0).natAbs (bresXStep x0 y0 x1 y1)
            (bresYStep x0 y0 x1 y1) (x1 - x0).natAbs
            (y0, x0, 2 * ((y1 - y0).natAbs : Int) - ((x1 - x0).natAbs : Int))).map Prod.swap := by
      simp [Prod.swap]
    rw [h, List.chain'_map]
    have hc := bresSteps_chain (y1 - y0).natAbs (x1 - x0).natAbs
      (bresXStep x0 y0 x1 y1) (bresYStep x0 y0 x1 y1)
      (bresXStep_pm x0 y0 x1 y1) (bresYStep_pm x0 y0 x1 y1)
      (x1 - x0).natAbs
      (y0, x0, 2 * ((y1 - y0).natAbs : Int) - ((x1 - x0).natAbs : Int))
    exact hc.imp fun a b hab => (adj8_swap a b).mpr hab
  · exact bresSteps_chain (x1 - x0).natAbs (y1 - y0).natAbs
      (bresXStep x0 y0 x1 y1) (bresYStep x0 y0 x1 y1)
      (bresXStep_pm x0 y0 x1 y1) (bresYStep_pm x0 y0 x1 y1)
      (y1 - y0).natAbs
      (x0, y0, 2 * ((x1 - x0).natAbs : Int) - ((y1 - y0).natAbs : Int))

lemma getLast?_map {α β : Type} (f : α → β) :
    ∀ l : List α, (l.map f).getLast? = l.getLast?.map f
  | [] => rfl
  | [_] => rfl
  | a :: b :: l => by
    rw [List.map_cons, List.map_cons, List.getLast?_cons_cons, List.getLast?_cons_cons,
      ← List.map_cons f b l]
    exact getLast?_map f (b :: l)

lemma bresSteps_getLast (dx dy : Nat) (xs ys : Int) (n : Nat) (x y p : Int) :
    ((x, y) :: bresSteps dx dy xs ys n (x, y, p)).getLast? =
      some ((bresFinal dx dy xs ys n (x, y, p)).1, (bresFinal dx dy xs ys n (x, y, p)).2.1) :=
  bresSteps_getLast? dx dy xs ys n (x, y, p)

lemma bresFinal_y2 (dx dy : Nat) (xs ys : Int) (n : Nat) (x y p : Int) :
    (bresFinal dx dy xs ys n (x, y, p)).2.1 = y + n * ys :=
  bresFinal_y dx dy xs ys n (x, y, p)

/-- In every octant regime except the two buggy ones (moving left with
`|Δy| < |Δx|`, and moving down-left with `|Δy| = |Δx|`), the generated
line ends exactly at the requested end point. -/
lemma bresenham_getLast_good (x0 y0 x1 y1 : Int)
    (hgood : x0 ≤ x1 ∨ (x1 - x0).natAbs < (y1 - y0).natAbs ∨
        ((y1 - y0).natAbs = (x1 - x0).natAbs ∧ y0 < y1)) :
    (bresenhamLineGenerator x0 y0 x1 y1).getLast? = some (x1, y1) := by
  unfold bresenhamLineGenerator
  split
  case isTrue hb =>
    obtain ⟨hb1, hb2⟩ := hb
    have hxlt : x0 < x1 := by omega
    rw [show ((x0, y0) : Point) ::
          (bresSteps (y1 - y0).natAbs (x1 - x0).natAbs (bresXStep x0 y0 x1 y1)
            (bresYStep x0 y0 x1 y1) (x1 - x0).natAbs
            (y0, x0, 2 * ((y1 - y0).natAbs : Int) - ((x1 - x0).natAbs : Int))).map Prod.swap =
        (((y0, x0) : Point) ::
          bresSteps (y1 - y0).natAbs (x1 - x0).natAbs (bresXStep x0 y0 x1 y1)
            (bresYStep x0 y0 x1 y1) (x1 - x0).natAbs
            (y0, x0, 2 * ((y1 - y0).natAbs : Int) - ((x1 - x0).natAbs : Int))).map Prod.swap
      from rfl]
    rw [getLast?_map, bresSteps_getLast]
    simp only [Option.map_some', Prod.swap_prod_mk]
    have hys : bresYStep x0 y0 x1 y1 = 1 := by
      unfold bresYStep
      rw [if_neg (by omega)]
    refine congrArg some (Prod.ext ?_ ?_)
    · show (bresFinal _ _ _ _ _ _).2.1 = x1
      rw [hys, bresFinal_y2]
      omega
    · show (bresFinal _ _ _ _ _ _).1 = y1
      by_cases hyy : y1 < y0
      · have hxs : bresXStep x0 y0 x1 y1 = -1 := by
          unfold bresXStep
          rw [if_pos (by omega)]
        rw [hxs, hys, bresFinal_x (y1 - y0).natAbs (x1 - x0).natAbs (-1) 1
          (Or.inr rfl) (by omega) (by omega) y0 x0]
        omega
      · have hxs : bresXStep x0 y0 x1 y1 = 1 := by
          unfold bresXStep
          rw [if_neg (by omega)]
        rw [hxs, hys, bresFinal_x (y1 - y0).natAbs (x1 - x0).natAbs 1 1
          (Or.inl rfl) (by omega) (by omega) y0 x0]
        omega
  case isFalse hb =>
    have hb' : (x1 - x0).natAbs = 0 ∨ (x1 - x0).natAbs ≤ (y1 - y0).natAbs := by omega
    by_cases hdy : (y1 - y0).natAbs = 0
    · have hdx : (x1 - x0).natAbs = 0 := by omega
      rw [hdy]
      simp only [bresSteps]
      rw [show (([((x0 : Int), (y0 : Int))] : List Point).getLast?) = some (x0, y0) from rfl]
      exact congrArg some (Prod.ext (show x0 = x1 by omega) (show y0 = y1 by omega))
    · rw [bresSteps_getLast]
      have hys : bresYStep x0 y0 x1 y1 = 1 ∨ bresYStep x0 y0 x1 y1 = -1 :=
        bresYStep_pm x0 y0 x1 y1
      have hxs : bresXStep x0 y0 x1 y1 = 1 ∨ bresXStep x0 y0 x1 y1 = -1 :=
        bresXStep_pm x0 y0 x1 y1
      refine congrArg some (Prod.ext ?_ ?_)
      · show (bresFinal _ _ _ _ _ _).1 = x1
        by_cases hdx : (x1 - x0).natAbs = 0
        · rcases hxs with hxs1 | hxs1
          · rw [hxs1, bresFinal_x (x1 - x0).natAbs (y1 - y0).natAbs 1
              (bresYStep x0 y0 x1 y1) (Or.inl rfl) (by omega) (by omega) x0 y0]
            omega
          · rw [hxs1, bresFinal_x (x1 - x0).natAbs (y1 - y0).natAbs (-1)
              (bresYStep x0 y0 x1 y1) (Or.inr rfl) (by omega) (by omega) x0 y0]
            omega
        · by_cases hxc : x0 ≤ x1
          · have hxs1 : bresXStep x0 y0 x1 y1 = 1 := by
              unfold bresXStep
              rw [if_neg (by omega)]
            rw [hxs1, bresFinal_x (x1 - x0).natAbs (y1 - y0).natAbs 1
              (bresYStep x0 y0 x1 y1) (Or.inl rfl) (by omega) (by omega) x0 y0]
            omega
          · have hxs1 : bresXStep x0 y0 x1 y1 = -1 := by
              unfold bresXStep
              rw [if_pos (by omega)]
            rw [hxs1, bresFinal_x (x1 - x0).natAbs (y1 - y0).natAbs (-1)
              (bresYStep x0 y0 x1 y1) (Or.inr rfl) (by omega) (by omega) x0 y0]
            omega
      · show (bresFinal _ _ _ _ _ _).2.1 = y1
        by_cases hyy : y1 < y0
        · have hys1 : bresYStep x0 y0 x1 y1 = -1 := by
            unfold bresYStep
            rw [if_pos (by omega)]
          rw [hys1, bresFinal_y2]
          omega
        · have hys1 : bresYStep x0 y0 x1 y1 = 1 := by
            unfold bresYStep
            rw [if_neg (by omega)]
          rw [hys1, bresFinal_y2]
          omega

/-! ### Claim theorems about the rasterizer -/

/-- C1 (counterexample): the claim that the generated line always ends at
the requested end point fails at the concrete input `(1,1) → (0,0)`: the
generator returns `[(1,1), (2,0)]`, whose last point is `(2,0)`, not
`(0,0)` (the `slope = 1`, down-left octant picks the wrong x step). -/
theorem bresenham_endpoint_cex :
    bresenhamLineGenerator 1 1 0 0 = [(1, 1), (2, 0)] ∧
    (bresenhamLineGenerator 1 1 0 0).getLast? ≠ some (0, 0) := by
  constructor
  · decide
  · decide

/-- C1 (amended): for every pair of integer endpoints, consecutive points
of the generated sequence differ by at most 1 in each coordinate; and the
last point of the sequence is the end point `(x1, y1)` provided `x0 ≤ x1`,
or `|y1 - y0| > |x1 - x0|`, or (`|y1 - y0| = |x1 - x0|` and `y0 < y1`) —
i.e. in every octant regime except moving left with `|Δy| < |Δx|` and
moving down-left with `|Δy| = |Δx|`, where the step signs are chosen
incorrectly. -/
theorem bresenham_connected_endpoint (x0 y0 x1 y1 : Int) :
    List.Chain' adj8 (bresenhamLineGenerator x0 y0 x1 y1) ∧
    ((x0 ≤ x1 ∨ (x1 - x0).natAbs < (y1 - y0).natAbs ∨
        ((y1 - y0).natAbs = (x1 - x0).natAbs ∧ y0 < y1)) →
      (bresenhamLineGenerator x0 y0 x1 y1).getLast? = some (x1, y1)) :=
  ⟨bresenham_chain x0 y0 x1 y1, bresenham_getLast_good x0 y0 x1 y1⟩

/-- C1 (witness): the amended endpoint statement instantiated at the
concrete line from `(0,0)` to `(3,5)`. -/
theorem bresenham_connected_endpoint_witness :
    List.Chain' adj8 (bresenhamLineGenerator 0 0 3 5) ∧
    (bresenhamLineGenerator 0 0 3 5).getLast? = some (3, 5) :=
  ⟨(bresenham_connected_endpoint 0 0 3 5).1,
    (bresenham_connected_endpoint 0 0 3 5).2 (Or.inl (by decide))⟩

/-- C7: for every pair of integer endpoints, the generated sequence begins
exactly with the start point `(x0, y0)` and contains exactly
`max (|x1 - x0|) (|y1 - y0|) + 1` points. -/
theorem bresenham_start_length (x0 y0 x1 y1 : Int) :
    (bresenhamLineGenerator x0 y0 x1 y1).head? = some (x0, y0) ∧
    (bresenhamLineGenerator x0 y0 x1 y1).length =
      max (x1 - x0).natAbs (y1 - y0).natAbs + 1 := by
  constructor
  · unfold bresenhamLineGenerator
    split <;> rfl
  · unfold bresenhamLineGenerator
    split
    case isTrue hb =>
      simp only [List.length_cons, List.length_map, bresSteps_length]
      omega
    case isFalse hb =>
      simp only [List.length_cons, bresSteps_length]
      omega

/-- C8: for every vertical input (`x1 = x0`), the embedded generator (in
which the source's division-by-zero guard replaces the slope by the large
constant `10.0`, routing the call through the steep-slope branch) returns
the straight vertical run of `|y1 - y0| + 1` points, all with
x-coordinate `x0`, stepping one pixel at a time towards `y1`. -/
theorem bresenham_vertical (x0 y0 y1 : Int) :
    bresenhamLineGenerator x0 y0 x0 y1 =
      (List.range ((y1 - y0).natAbs + 1)).map
        fun (k : Nat) => (x0, y0 + (k : Int) * (if y1 < y0 then -1 else 1)) := by
  have h0 : (x0 - x0).natAbs = 0 := by omega
  have hys : bresYStep x0 y0 x0 y1 = (if y1 < y0 then -1 else 1) := by
    unfold bresYStep
    by_cases hyy : y1 < y0
    · rw [if_pos (by omega), if_pos hyy]
    · rw [if_neg (by omega), if_neg hyy]
  unfold bresenhamLineGenerator
  rw [if_neg (by omega)]
  rw [h0]
  by_cases hdy : (y1 - y0).natAbs = 0
  · rw [hdy]
    simp only [bresSteps, List.range_succ, List.range_zero, List.nil_append,
      List.map_cons, List.map_nil, Nat.cast_zero, zero_mul, add_zero]
  · rw [bresSteps_vertical (y1 - y0).natAbs (bresXStep x0 y0 x0 y1) (bresYStep x0 y0 x0 y1)
      (y1 - y0).natAbs x0 y0 (2 * ((0 : Nat) : Int) - ((y1 - y0).natAbs : Int))
      (by omega)]
    rw [hys]
    rw [List.range_succ_eq_map, List.map_cons, List.map_map]
    refine congrArg₂ _ (by simp) ?_
    refine List.map_congr_left fun k _ => ?_
    simp only [Function.comp]
    refine Prod.ext rfl ?_
    show y0 + ((k : Int) + 1) * _ = y0 + ((k + 1 : Nat) : Int) * _
    push_cast
    ring

/-! ### Lemmas about the ring decoder -/

lemma sampleScale_le (k t : Nat) : sampleScale k t ≤ t := by
  unfold sampleScale
  split
  · calc 85 * t / 100 ≤ 100 * t / 100 :=
        Nat.div_le_div_right (Nat.mul_le_mul_right t (by omega))
      _ = t := Nat.mul_div_cancel_left t (by omega)
  · split
    · calc 9 * t / 10 ≤ 10 * t / 10 :=
          Nat.div_le_div_right (Nat.mul_le_mul_right t (by omega))
        _ = t := Nat.mul_div_cancel_left t (by omega)
    · exact le_refl t

lemma sampleCentres_length (L c : Nat) : (sampleCentres L c).length = (L - 1) / c := by
  simp [sampleCentres]

lemma sampleCentres_getD (L c i : Nat) (h : i < (L - 1) / c) :
    (sampleCentres L c).getD i 0 = (i + 1) * c := by
  unfold sampleCentres
  rw [List.getD_eq_getElem?_getD, List.getElem?_map, List.getElem?_range h]
  rfl

lemma ringLoop_ok (gray : Point → Nat) (path : List Point) :
    ∀ (centres : List Nat) (k : Nat) (acc : List Nat),
      (∀ i, i < centres.length → sampleScale (k + i) (centres.getD i 0) < path.length) →
      ringLoop gray path centres k acc =
        .ok (acc ++ (List.range centres.length).map fun i =>
          if 180 < gray (path.getD (sampleScale (k + i) (centres.getD i 0)) (0, 0)) then 0
          else 1)
  | [], k, acc, _ => by simp [ringLoop]
  | centre :: rest, k, acc, hin => by
    have h0 : sampleScale (k + 0) ((centre :: rest).getD 0 0) < path.length :=
      hin 0 (by simp)
    simp only [List.getD_cons_zero, Nat.add_zero] at h0
    have hget : path.get? (sampleScale k centre) =
        some (path.getD (sampleScale k centre) (0, 0)) := by
      rw [List.getD_eq_getElem?_getD, ← List.get?_eq_getElem?]
      rcases h : path.get? (sampleScale k centre) with _ | pt
      · rw [List.get?_eq_none] at h
        omega
      · rfl
    have hstep : ringLoop gray path (centre :: rest) k acc =
        ringLoop gray path rest (k + 1)
          (acc ++ [if 180 < gray (path.getD (sampleScale k centre) (0, 0)) then 0 else 1]) := by
      rw [ringLoop, hget]
    have hrest : ∀ i, i < rest.length →
        sampleScale (k + 1 + i) (rest.getD i 0) < path.length := by
      intro i hi
      have := hin (i + 1) (by simpa using Nat.succ_lt_succ hi)
      rw [List.getD_cons_succ] at this
      rw [show k + 1 + i = k + (i + 1) by omega]
      exact this
    rw [hstep, ringLoop_ok gray path rest (k + 1)
      (acc ++ [if 180 < gray (path.getD (sampleScale k centre) (0, 0)) then 0 else 1]) hrest]
    refine congrArg Except.ok ?_
    rw [List.length_cons, List.range_succ_eq_map, List.map_cons, List.map_map,
      List.append_assoc, List.singleton_append]
    refine congrArg₂ _ rfl (congrArg₂ _ ?_ ?_)
    · rw [List.getD_cons_zero, Nat.add_zero]
    · refine List.map_congr_left fun i _ => ?_
      simp only [Function.comp, List.getD_cons_succ]
      rw [show k + (i + 1) = k + 1 + i by omega]

/-- For a positive stride the decoding loop always completes: every
corrected lookup index stays inside the path, at least one bit is sampled,
and the decoded value is the once-reversed bit string read in base 2. -/
lemma decodeRing_ok (gray : Point → Nat) (path : List Point)
    (hc : 1 ≤ cycleJump path.length) :
    decodeRing gray path = .ok (parseBinary (specBits gray path).reverse) ∧
    (specBits gray path).length = numSamples path.length ∧
    1 ≤ numSamples path.length := by
  have hclt : cycleJump path.length < path.length := by
    unfold cycleJump at hc ⊢
    omega
  have hn1 : 1 ≤ numSamples path.length := by
    unfold numSamples
    rw [Nat.one_le_div_iff (by omega)]
    omega
  have hin : ∀ i, i < (sampleCentres path.length (cycleJump path.length)).length →
      sampleScale (0 + i)
        ((sampleCentres path.length (cycleJump path.length)).getD i 0) < path.length := by
    intro i hi
    rw [sampleCentres_length] at hi
    rw [sampleCentres_getD _ _ _ hi]
    have h1 : sampleScale (0 + i) ((i + 1) * cycleJump path.length) ≤
        (i + 1) * cycleJump path.length := sampleScale_le _ _
    have h2 : (i + 1) * cycleJump path.length ≤
        ((path.length - 1) / cycleJump path.length) * cycleJump path.length :=
      Nat.mul_le_mul_right _ (by omega)
    have h3 : ((path.length - 1) / cycleJump path.length) * cycleJump path.length ≤
        path.length - 1 := Nat.div_mul_le_self _ _
    omega
  have hbits : ringLoop gray path (sampleCentres path.length (cycleJump path.length)) 0 [] =
      .ok (specBits gray path) := by
    rw [ringLoop_ok gray path _ 0 [] hin]
    refine congrArg Except.ok ?_
    rw [List.nil_append, sampleCentres_length]
    unfold specBits numSamples
    refine List.map_congr_left fun i hi => ?_
    rw [List.mem_range] at hi
    unfold specBit
    rw [sampleCentres_getD _ _ _ hi, Nat.zero_add]
  have hlen : (specBits gray path).length = numSamples path.length := by
    unfold specBits
    simp
  refine ⟨?_, hlen, hn1⟩
  unfold decodeRing
  rw [if_neg (by omega), hbits]
  show (if specBits gray path = [] then (Except.error DecodeError.valueError : Except DecodeError Nat)
      else Except.ok (parseBinary (specBits gray path).reverse)) =
    Except.ok (parseBinary (specBits gray path).reverse)
  rw [if_neg (by
    intro hnil
    rw [hnil] at hlen
    simp at hlen
    omega)]

lemma specBits_le_one (gray : Point → Nat) (path : List Point) :
    ∀ b ∈ specBits gray path, b ≤ 1 := by
  intro b hb
  unfold specBits at hb
  obtain ⟨k, _, hk⟩ := List.mem_map.mp hb
  unfold specBit at hk
  split at hk <;> omega

lemma parseBinary_reverse_lt (l : List Nat) (h : ∀ b ∈ l, b ≤ 1) :
    parseBinary l.reverse < 2 ^ l.length := by
  unfold parseBinary
  rw [List.foldl_reverse]
  induction l with
  | nil => simp
  | cons b l ih =>
    rw [List.foldr_cons, List.length_cons, pow_succ]
    have hb : b ≤ 1 := h b (List.mem_cons_self b l)
    have hl : List.foldr (fun x y => 2 * y + x) 0 l < 2 ^ l.length :=
      ih fun x hx => h x (List.mem_cons_of_mem b hx)
    omega

lemma numSamples_le_nine (L : Nat) (hc : 1 ≤ cycleJump L) :
    numSamples L ≤ 9 ∧ (numSamples L = 9 → L = 10) := by
  have hL : 6 ≤ L := by
    unfold cycleJump at hc
    omega
  by_cases hL11 : L ≤ 11
  · interval_cases L <;> exact ⟨by decide, by decide⟩
  · have hlt : numSamples L < 10 := by
      unfold numSamples
      rw [Nat.div_lt_iff_lt_mul (by omega : 0 < cycleJump L)]
      unfold cycleJump
      omega
    refine ⟨by omega, ?_⟩
    intro h9
    exfalso
    have h9' : 9 ≤ numSamples L := by omega
    unfold numSamples at h9'
    rw [Nat.le_div_iff_mul_le (by omega : 0 < cycleJump L)] at h9'
    unfold cycleJump at h9'
    omega

/-! ### Claim theorems about the ring decoder -/

/-- Fixed concrete inputs used to instantiate the decoder theorems. -/
def grayZero : Point → Nat := fun _ => 0

def pathFive : List Point := [(0, 0), (0, 1), (0, 2), (0, 3), (0, 4)]

def pathSix : List Point := [(0, 0), (0, 1), (0, 2), (0, 3), (0, 4), (0, 5)]

def pathTen : List Point :=
  [(0, 0), (0, 1), (0, 2), (0, 3), (0, 4), (0, 5), (0, 6), (0, 7), (0, 8), (0, 9)]

/-- C4 (counterexample): the axis path of length 5 satisfies the claimed
hypothesis `length ≥ 10·cycleJump` (its stride is 0, so the bound is 0),
yet the ring-decoding loop does not complete: the embedded decoder returns
the zero-step range error instead of an identifier. -/
theorem identifier_range_cex :
    10 * cycleJump pathFive.length ≤ pathFive.length ∧
    decodeRing grayZero pathFive = .error .rangeError := by
  constructor
  · decide
  · rfl

/-- C4 (amended): for every axis path of length at least `10 · cycleJump`
whose stride `cycleJump` is positive, the ring-decoding loop completes and
the decoded identifier lies in `[0, 1023]`. -/
theorem identifier_range_amended (gray : Point → Nat) (path : List Point)
    (_h10 : 10 * cycleJump path.length ≤ path.length)
    (hc : 1 ≤ cycleJump path.length) :
    ∃ v, decodeRing gray path = .ok v ∧ v ≤ 1023 := by
  obtain ⟨hok, hlen, _⟩ := decodeRing_ok gray path hc
  refine ⟨_, hok, ?_⟩
  have hb := parseBinary_reverse_lt (specBits gray path) (specBits_le_one gray path)
  rw [hlen] at hb
  have h9 := (numSamples_le_nine path.length hc).1
  have : (2 : Nat) ^ numSamples path.length ≤ 2 ^ 9 :=
    Nat.pow_le_pow_right (by omega) h9
  omega

/-- C4 (witness): the amended statement at the concrete path of length 10
(stride 1) with a uniformly dark frame. -/
theorem identifier_range_amended_witness :
    10 * cycleJump pathTen.length ≤ pathTen.length ∧
    (1 ≤ cycleJump pathTen.length) ∧
    ∃ v, decodeRing grayZero pathTen = .ok v ∧ v ≤ 1023 :=
  ⟨by decide, by decide,
    identifier_range_amended grayZero pathTen (by decide) (by decide)⟩

/-- C5: whenever the decoder returns an identifier, that identifier is the
base-2 value of the once-reversed sampled bit string, where the bit at
each sampled path point is `0` exactly when the grayscale intensity there
exceeds 180 and `1` otherwise (`specBits` lists the bits in sampling
order); and the sampled bit string `1010000000` decodes, after the single
reversal, to the identifier 5. -/
theorem ring_decoder_bit_policy :
    (∀ (gray : Point → Nat) (path : List Point) (v : Nat),
        decodeRing gray path = .ok v →
          v = parseBinary (specBits gray path).reverse) ∧
    parseBinary (([1, 0, 1, 0, 0, 0, 0, 0, 0, 0] : List Nat).reverse) = 5 := by
  constructor
  · intro gray path v h
    by_cases hc : cycleJump path.length = 0
    · unfold decodeRing at h
      rw [if_pos hc] at h
      exact absurd h (by simp)
    · obtain ⟨hok, _, _⟩ := decodeRing_ok gray path (by omega)
      rw [h] at hok
      exact (Except.ok.injEq _ _).mp hok
  · decide

/-- C5 (witness): the bit-policy statement at the concrete path of length
6 with a uniformly dark frame, whose five sampled bits are all `1` and
decode to 31. -/
theorem ring_decoder_bit_policy_witness :
    decodeRing grayZero pathSix = .ok 31 ∧
    (31 : Nat) = parseBinary (specBits grayZero pathSix).reverse :=
  ⟨rfl, ring_decoder_bit_policy.1 grayZero pathSix 31 rfl⟩

/-- C6 (counterexample): the sixth sample (`actCycle = 5`) is looked up at
the unscaled centre index — `sampleScale 5 6 = 6` while scaling by 0.85
would give 5 — refuting the claim that every sample after the first is
scaled by 0.85. -/
theorem warp_scale_cex :
    (sampleScale 5 6 = 6 ∧ 85 * 6 / 100 = 5) ∧
    ¬(∀ k t : Nat, 1 ≤ k → sampleScale k t = 85 * t / 100) := by
  refine ⟨by decide, fun h => ?_⟩
  have := h 5 6 (by omega)
  rw [show sampleScale 5 6 = 6 from by decide] at this
  omega

/-- C6 (amended): the lookup index is the sample centre scaled by 0.9 for
the first sample, by 0.85 for the second through fifth samples
(`actCycle ∈ [1,4]`), and is the unscaled centre for every sample beyond
the fifth. -/
theorem warp_scale_amended (k t : Nat) :
    (k = 0 → sampleScale k t = 9 * t / 10) ∧
    (1 ≤ k → k ≤ 4 → sampleScale k t = 85 * t / 100) ∧
    (5 ≤ k → sampleScale k t = t) := by
  refine ⟨?_, ?_, ?_⟩
  · intro h
    subst h
    rfl
  · intro h1 h4
    interval_cases k <;> rfl
  · intro h5
    unfold sampleScale
    rw [if_neg (by omega), if_neg (by omega)]

/-- C6 (witness): the amended scaling policy at centre 20 for the first,
fourth and eighth samples. -/
theorem warp_scale_amended_witness :
    sampleScale 0 20 = 18 ∧ sampleScale 3 20 = 17 ∧ sampleScale 7 20 = 20 :=
  ⟨(warp_scale_amended 0 20).1 rfl,
   (warp_scale_amended 3 20).2.1 (by omega) (by omega),
   (warp_scale_amended 7 20).2.2 (by omega)⟩

/-- C10: whenever the sampling loop executes at all (positive stride,
equivalently path length at least 6), the number of sampled bits is at
most 9, the value 9 being attained only at path length 10, so the decoder
completes and the decoded identifier is strictly below 512 — the
documented 10-bit maximum is never attained. -/
theorem sample_count_bound (gray : Point → Nat) (path : List Point)
    (hc : 1 ≤ cycleJump path.length) :
    6 ≤ path.length ∧
    numSamples path.length ≤ 9 ∧
    (numSamples path.length = 9 → path.length = 10) ∧
    ∃ v, decodeRing gray path = .ok v ∧ v < 512 := by
  refine ⟨?_, (numSamples_le_nine path.length hc).1,
    (numSamples_le_nine path.length hc).2, ?_⟩
  · unfold cycleJump at hc
    omega
  · obtain ⟨hok, hlen, _⟩ := decodeRing_ok gray path hc
    refine ⟨_, hok, ?_⟩
    have hb := parseBinary_reverse_lt (specBits gray path) (specBits_le_one gray path)
    rw [hlen] at hb
    have h9 := (numSamples_le_nine path.length hc).1
    have : (2 : Nat) ^ numSamples path.length ≤ 2 ^ 9 :=
      Nat.pow_le_pow_right (by omega) h9
    omega

/-- C10 (witness): the sample-count bound at the concrete path of length
10, the unique length attaining 9 samples. -/
theorem sample_count_bound_witness :
    6 ≤ pathTen.length ∧
    numSamples pathTen.length ≤ 9 ∧
    ∃ v, decodeRing grayZero pathTen = .ok v ∧ v < 512 :=
  ⟨(sample_count_bound grayZero pathTen (by decide)).1,
   (sample_count_bound grayZero pathTen (by decide)).2.1,
   (sample_count_bound grayZero pathTen (by decide)).2.2.2⟩

/-! ### Claim theorems about the corner resolver's failure modes and the
identifier-to-offset mapping -/

/-- A pentagon all of whose edges are long (length at least 80): it has no
short edge at all. -/
def convexPenta : List Point := [(0, 0), (100, 0), (200, 100), (100, 200), (0, 100)]

/-- A pentagon with exactly two short edges that do not share any vertex
(edges 0 and 2; the remaining three edges are long). -/
def twoShortPoly : List Point := [(0, 0), (10, 0), (10, 100), (20, 100), (100, 50)]

/-- C3 (counterexample): for the concrete 5-vertex polygon with two short
edges sharing no vertex, the corner search raises an index error (the
source indexes `matchingSides[(loopIndex + 1) % 3]` out of range) instead
of silently skipping the polygon; and the degenerate axis path of length 5
(sampling stride 0) makes the decoder raise the zero-step range error
instead of yielding an empty record set. -/
theorem frame_no_raise_cex :
    twoShortPoly.length = 5 ∧ noSharedVertex twoShortPoly ∧
    resolveCorner twoShortPoly = .indexError ∧
    decodeRing grayZero pathFive = .error .rangeError := by
  refine ⟨by decide, by decide, by decide, rfl⟩

/-- C3 (amended): for every 5-vertex polygon with no short edge the
polygon is silently skipped (no record, no error); for every 5-vertex
polygon with exactly one or two short edges the corner search instead
raises an index error; and every axis path short enough that the sampling
stride is zero (length at most 5) makes the decoder raise a range error
rather than yield an empty record set. -/
theorem frame_degenerate_behavior (poly : List Point) (gray : Point → Nat)
    (path : List Point) (_h5 : poly.length = 5) :
    ((matchingSides poly).length = 0 → resolveCorner poly = .noMarker) ∧
    ((matchingSides poly).length = 1 ∨ (matchingSides poly).length = 2 →
      resolveCorner poly = .indexError) ∧
    (path.length ≤ 5 → decodeRing gray path = .error .rangeError) := by
  refine ⟨?_, ?_, ?_⟩
  · intro h0
    unfold resolveCorner
    rw [List.length_eq_zero.mp h0]
    rfl
  · intro h12
    unfold resolveCorner
    rcases h12 with h1 | h2
    · obtain ⟨a, ha⟩ := List.length_eq_one.mp h1
      rw [ha]
      rfl
    · obtain ⟨a, b, hab⟩ := List.length_eq_two.mp h2
      rw [hab]
      show cornerLoop poly [a, b] [a, b] 0 = .indexError
      rw [cornerLoop]
      show (if edgeFst poly a = edgeFst poly b ∨ edgeFst poly a = edgeSnd poly b then
          finishCorner poly [a, b] 0 (edgeFst poly a)
        else if edgeSnd poly a = edgeFst poly b ∨ edgeSnd poly a = edgeSnd poly b then
          finishCorner poly [a, b] 0 (edgeSnd poly a)
        else cornerLoop poly [a, b] [b] 1) = .indexError
      split_ifs <;> rfl
  · intro hlen
    unfold decodeRing
    rw [if_pos (show cycleJump path.length = 0 by unfold cycleJump; omega)]

/-- C3 (witness): the amended behaviour at the concrete all-long-edge
pentagon (skipped with no error) and the concrete length-5 path (range
error). -/
theorem frame_degenerate_behavior_witness :
    resolveCorner convexPenta = .noMarker ∧
    decodeRing grayZero pathFive = .error .rangeError :=
  ⟨(frame_degenerate_behavior convexPenta grayZero pathFive (by decide)).1 (by decide),
   (frame_degenerate_behavior convexPenta grayZero pathFive (by decide)).2.2 (by decide)⟩

/-- C9: the reference offset emitted for identifier `n` equals
`(cos(-15° · n) · 70, sin(-15° · n) · 70)` with the angle taken in degrees
(converted to radians), and identifier 0 maps exactly to the offset
`(70, 0)`. -/
theorem identifier_offset_mapping :
    (∀ n : Nat, refOffset n = specOffset n) ∧ refOffset 0 = (70, 0) := by
  constructor
  · intro n
    unfold refOffset specOffset
    rw [show (-15 : ℝ) * Real.pi / 180 * n = (-15 * (n : ℝ)) * Real.pi / 180 by ring]
  · unfold refOffset
    refine Prod.ext ?_ ?_ <;> simp

/-! ### The corner search on a three-element short-edge list -/

/-- Canonical form of the corner-search loop when the short-edge list has
exactly three entries: the first examined pair that shares an endpoint
wins, the shared point being the first endpoint of the current side when
that one matches and its second endpoint otherwise, and the returned
midpoint being that of the third short edge, two positions ahead
cyclically. -/
lemma cornerLoop_three (poly : List Point) (a b c3 : Nat) :
    cornerLoop poly [a, b, c3] [a, b, c3] 0 =
      if pairShares poly [a, b, c3] 0 then
        .found (sharedPoint poly [a, b, c3] 0) (thirdMid poly [a, b, c3] 0)
      else if pairShares poly [a, b, c3] 1 then
        .found (sharedPoint poly [a, b, c3] 1) (thirdMid poly [a, b, c3] 1)
      else if pairShares poly [a, b, c3] 2 then
        .found (sharedPoint poly [a, b, c3] 2) (thirdMid poly [a, b, c3] 2)
      else .noMarker := by
  by_cases hA0 : edgeFst poly a = edgeFst poly b ∨ edgeFst poly a = edgeSnd poly b
  · have hp0 : pairShares poly [a, b, c3] 0 := by
      show edgeFst poly a = edgeFst poly b ∨ edgeFst poly a = edgeSnd poly b ∨
          edgeSnd poly a = edgeFst poly b ∨ edgeSnd poly a = edgeSnd poly b
      rcases hA0 with h | h
      · exact Or.inl h
      · exact Or.inr (Or.inl h)
    have hsp : sharedPoint poly [a, b, c3] 0 = edgeFst poly a := by
      show (if edgeFst poly a = edgeFst poly b ∨ edgeFst poly a = edgeSnd poly b then
          edgeFst poly a else edgeSnd poly a) = edgeFst poly a
      rw [if_pos hA0]
    rw [if_pos hp0, hsp]
    show (if edgeFst poly a = edgeFst poly b ∨ edgeFst poly a = edgeSnd poly b then
        finishCorner poly [a, b, c3] 0 (edgeFst poly a)
      else if edgeSnd poly a = edgeFst poly b ∨ edgeSnd poly a = edgeSnd poly b then
        finishCorner poly [a, b, c3] 0 (edgeSnd poly a)
      else cornerLoop poly [a, b, c3] [b, c3] 1) =
      CornerResult.found (edgeFst poly a) (thirdMid poly [a, b, c3] 0)
    rw [if_pos hA0]
    rfl
  · by_cases hB0 : edgeSnd poly a = edgeFst poly b ∨ edgeSnd poly a = edgeSnd poly b
    · have hp0 : pairShares poly [a, b, c3] 0 := by
        show edgeFst poly a = edgeFst poly b ∨ edgeFst poly a = edgeSnd poly b ∨
            edgeSnd poly a = edgeFst poly b ∨ edgeSnd poly a = edgeSnd poly b
        rcases hB0 with h | h
        · exact Or.inr (Or.inr (Or.inl h))
        · exact Or.inr (Or.inr (Or.inr h))
      have hsp : sharedPoint poly [a, b, c3] 0 = edgeSnd poly a := by
        show (if edgeFst poly a = edgeFst poly b ∨ edgeFst poly a = edgeSnd poly b then
            edgeFst poly a else edgeSnd poly a) = edgeSnd poly a
        rw [if_neg hA0]
      rw [if_pos hp0, hsp]
      show (if edgeFst poly a = edgeFst poly b ∨ edgeFst poly a = edgeSnd poly b then
          finishCorner poly [a, b, c3] 0 (edgeFst poly a)
        else if edgeSnd poly a = edgeFst poly b ∨ edgeSnd poly a = edgeSnd poly b then
          finishCorner poly [a, b, c3] 0 (edgeSnd poly a)
        else cornerLoop poly [a, b, c3] [b, c3] 1) =
        CornerResult.found (edgeSnd poly a) (thirdMid poly [a, b, c3] 0)
      rw [if_neg hA0, if_pos hB0]
      rfl
    · have hp0 : ¬pairShares poly [a, b, c3] 0 := by
        show ¬(edgeFst poly a = edgeFst poly b ∨ edgeFst poly a = edgeSnd poly b ∨
            edgeSnd poly a = edgeFst poly b ∨ edgeSnd poly a = edgeSnd poly b)
        rintro (h | h | h | h)
        · exact hA0 (Or.inl h)
        · exact hA0 (Or.inr h)
        · exact hB0 (Or.inl h)
        · exact hB0 (Or.inr h)
      rw [if_neg hp0]
      show (if edgeFst poly a = edgeFst poly b ∨ edgeFst poly a = edgeSnd poly b then
          finishCorner poly [a, b, c3] 0 (edgeFst poly a)
        else if edgeSnd poly a = edgeFst poly b ∨ edgeSnd poly a = edgeSnd poly b then
          finishCorner poly [a, b, c3] 0 (edgeSnd poly a)
        else cornerLoop poly [a, b, c3] [b, c3] 1) = _
      rw [if_neg hA0, if_neg hB0]
      by_cases hA1 : edgeFst poly b = edgeFst poly c3 ∨ edgeFst poly b = edgeSnd poly c3
      · have hp1 : pairShares poly [a, b, c3] 1 := by
          show edgeFst poly b = edgeFst poly c3 ∨ edgeFst poly b = edgeSnd poly c3 ∨
              edgeSnd poly b = edgeFst poly c3 ∨ edgeSnd poly b = edgeSnd poly c3
          rcases hA1 with h | h
          · exact Or.inl h
          · exact Or.inr (Or.inl h)
        have hsp : sharedPoint poly [a, b, c3] 1 = edgeFst poly b := by
          show (if edgeFst poly b = edgeFst poly c3 ∨ edgeFst poly b = edgeSnd poly c3 then
              edgeFst poly b else edgeSnd poly b) = edgeFst poly b
          rw [if_pos hA1]
        rw [if_pos hp1, hsp]
        show (if edgeFst poly b = edgeFst poly c3 ∨ edgeFst poly b = edgeSnd poly c3 then
            finishCorner poly [a, b, c3] 1 (edgeFst poly b)
          else if edgeSnd poly b = edgeFst poly c3 ∨ edgeSnd poly b = edgeSnd poly c3 then
            finishCorner poly [a, b, c3] 1 (edgeSnd poly b)
          else cornerLoop poly [a, b, c3] [c3] 2) =
          CornerResult.found (edgeFst poly b) (thirdMid poly [a, b, c3] 1)
        rw [if_pos hA1]
        rfl
      · by_cases hB1 : edgeSnd poly b = edgeFst poly c3 ∨ edgeSnd poly b = edgeSnd poly c3
        · have hp1 : pairShares poly [a, b, c3] 1 := by
            show edgeFst poly b = edgeFst poly c3 ∨ edgeFst poly b = edgeSnd poly c3 ∨
                edgeSnd poly b = edgeFst poly c3 ∨ edgeSnd poly b = edgeSnd poly c3
            rcases hB1 with h | h
            · exact Or.inr (Or.inr (Or.inl h))
            · exact Or.inr (Or.inr (Or.inr h))
          have hsp : sharedPoint poly [a, b, c3] 1 = edgeSnd poly b := by
            show (if edgeFst poly b = edgeFst poly c3 ∨ edgeFst poly b = edgeSnd poly c3 then
                edgeFst poly b else edgeSnd poly b) = edgeSnd poly b
            rw [if_neg hA1]
          rw [if_pos hp1, hsp]
          show (if edgeFst poly b = edgeFst poly c3 ∨ edgeFst poly b = edgeSnd poly c3 then
              finishCorner poly [a, b, c3] 1 (edgeFst poly b)
            else if edgeSnd poly b = edgeFst poly c3 ∨ edgeSnd poly b = edgeSnd poly c3 then
              finishCorner poly [a, b, c3] 1 (edgeSnd poly b)
            else cornerLoop poly [a, b, c3] [c3] 2) =
            CornerResult.found (edgeSnd poly b) (thirdMid poly [a, b, c3] 1)
          rw [if_neg hA1, if_pos hB1]
          rfl
        · have hp1 : ¬pairShares poly [a, b, c3] 1 := by
            show ¬(edgeFst poly b = edgeFst poly c3 ∨ edgeFst poly b = edgeSnd poly c3 ∨
                edgeSnd poly b = edgeFst poly c3 ∨ edgeSnd poly b = edgeSnd poly c3)
            rintro (h | h | h | h)
            · exact hA1 (Or.inl h)
            · exact hA1 (Or.inr h)
            · exact hB1 (Or.inl h)
            · exact hB1 (Or.inr h)
          rw [if_neg hp1]
          show (if edgeFst poly b = edgeFst poly c3 ∨ edgeFst poly b = edgeSnd poly c3 then
              finishCorner poly [a, b, c3] 1 (edgeFst poly b)
            else if edgeSnd poly b = edgeFst poly c3 ∨ edgeSnd poly b = edgeSnd poly c3 then
              finishCorner poly [a, b, c3] 1 (edgeSnd poly b)
            else cornerLoop poly [a, b, c3] [c3] 2) = _
          rw [if_neg hA1, if_neg hB1]
          by_cases hA2 : edgeFst poly c3 = edgeFst poly a ∨ edgeFst poly c3 = edgeSnd poly a
          · have hp2 : pairShares poly [a, b, c3] 2 := by
              show edgeFst poly c3 = edgeFst poly a ∨ edgeFst poly c3 = edgeSnd poly a ∨
                  edgeSnd poly c3 = edgeFst poly a ∨ edgeSnd poly c3 = edgeSnd poly a
              rcases hA2 with h | h
              · exact Or.inl h
              · exact Or.inr (Or.inl h)
            have hsp : sharedPoint poly [a, b, c3] 2 = edgeFst poly c3 := by
              show (if edgeFst poly c3 = edgeFst poly a ∨ edgeFst poly c3 = edgeSnd poly a then
                  edgeFst poly c3 else edgeSnd poly c3) = edgeFst poly c3
              rw [if_pos hA2]
            rw [if_pos hp2, hsp]
            show (if edgeFst poly c3 = edgeFst poly a ∨ edgeFst poly c3 = edgeSnd poly a then
                finishCorner poly [a, b, c3] 2 (edgeFst poly c3)
              else if edgeSnd poly c3 = edgeFst poly a ∨ edgeSnd poly c3 = edgeSnd poly a then
                finishCorner poly [a, b, c3] 2 (edgeSnd poly c3)
              else cornerLoop poly [a, b, c3] [] 3) =
              CornerResult.found (edgeFst poly c3) (thirdMid poly [a, b, c3] 2)
            rw [if_pos hA2]
            rfl
          · by_cases hB2 : edgeSnd poly c3 = edgeFst poly a ∨ edgeSnd poly c3 = edgeSnd poly a
            · have hp2 : pairShares poly [a, b, c3] 2 := by
                show edgeFst poly c3 = edgeFst poly a ∨ edgeFst poly c3 = edgeSnd poly a ∨
                    edgeSnd poly c3 = edgeFst poly a ∨ edgeSnd poly c3 = edgeSnd poly a
                rcases hB2 with h | h
                · exact Or.inr (Or.inr (Or.inl h))
                · exact Or.inr (Or.inr (Or.inr h))
              have hsp : sharedPoint poly [a, b, c3] 2 = edgeSnd poly c3 := by
                show (if edgeFst poly c3 = edgeFst poly a ∨ edgeFst poly c3 = edgeSnd poly a then
                    edgeFst poly c3 else edgeSnd poly c3) = edgeSnd poly c3
                rw [if_neg hA2]
              rw [if_pos hp2, hsp]
              show (if edgeFst poly c3 = edgeFst poly a ∨ edgeFst poly c3 = edgeSnd poly a then
                  finishCorner poly [a, b, c3] 2 (edgeFst poly c3)
                else if edgeSnd poly c3 = edgeFst poly a ∨ edgeSnd poly c3 = edgeSnd poly a then
                  finishCorner poly [a, b, c3] 2 (edgeSnd poly c3)
                else cornerLoop poly [a, b, c3] [] 3) =
                CornerResult.found (edgeSnd poly c3) (thirdMid poly [a, b, c3] 2)
              rw [if_neg hA2, if_pos hB2]
              rfl
            · have hp2 : ¬pairShares poly [a, b, c3] 2 := by
                show ¬(edgeFst poly c3 = edgeFst poly a ∨ edgeFst poly c3 = edgeSnd poly a ∨
                    edgeSnd poly c3 = edgeFst poly a ∨ edgeSnd poly c3 = edgeSnd poly a)
                rintro (h | h | h | h)
                · exact hA2 (Or.inl h)
                · exact hA2 (Or.inr h)
                · exact hB2 (Or.inl h)
                · exact hB2 (Or.inr h)
              rw [if_neg hp2]
              show (if edgeFst poly c3 = edgeFst poly a ∨ edgeFst poly c3 = edgeSnd poly a then
                  finishCorner poly [a, b, c3] 2 (edgeFst poly c3)
                else if edgeSnd poly c3 = edgeFst poly a ∨ edgeSnd poly c3 = edgeSnd poly a then
                  finishCorner poly [a, b, c3] 2 (edgeSnd poly c3)
                else cornerLoop poly [a, b, c3] [] 3) = CornerResult.noMarker
              rw [if_neg hA2, if_neg hB2]
              rfl

/-- Characterization of a successful corner resolution on a polygon with
exactly three short edges: the result is a first-match, not best-match,
selection. -/
lemma resolveCorner_found_iff (poly : List Point)
    (h3 : (matchingSides poly).length = 3) (cpt mpt : Point) :
    resolveCorner poly = .found cpt mpt ↔
      ∃ i, i < 3 ∧ (∀ j, j < i → ¬pairShares poly (matchingSides poly) j) ∧
        pairShares poly (matchingSides poly) i ∧
        cpt = sharedPoint poly (matchingSides poly) i ∧
        mpt = thirdMid poly (matchingSides poly) i := by
  obtain ⟨a, b, c3, hms⟩ := List.length_eq_three.mp h3
  unfold resolveCorner
  rw [hms, cornerLoop_three]
  by_cases h0 : pairShares poly [a, b, c3] 0
  · rw [if_pos h0]
    constructor
    · intro h
      rw [CornerResult.found.injEq] at h
      exact ⟨0, by omega, fun j hj => absurd hj (Nat.not_lt_zero j), h0,
        h.1.symm, h.2.symm⟩
    · rintro ⟨i, hi3, hmin, hpi, hc, hm⟩
      have hi0 : i = 0 := by
        by_contra hne
        exact hmin 0 (by omega) h0
      subst hi0
      rw [hc, hm]
  · rw [if_neg h0]
    by_cases h1 : pairShares poly [a, b, c3] 1
    · rw [if_pos h1]
      constructor
      · intro h
        rw [CornerResult.found.injEq] at h
        refine ⟨1, by omega, ?_, h1, h.1.symm, h.2.symm⟩
        intro j hj
        have hj0 : j = 0 := by omega
        rw [hj0]
        exact h0
      · rintro ⟨i, hi3, hmin, hpi, hc, hm⟩
        have hi1 : i = 1 := by
          interval_cases i
          · exact absurd hpi h0
          · rfl
          · exact absurd h1 (hmin 1 (by omega))
        subst hi1
        rw [hc, hm]
    · rw [if_neg h1]
      by_cases h2 : pairShares poly [a, b, c3] 2
      · rw [if_pos h2]
        constructor
        · intro h
          rw [CornerResult.found.injEq] at h
          refine ⟨2, by omega, ?_, h2, h.1.symm, h.2.symm⟩
          intro j hj
          interval_cases j
          · exact h0
          · exact h1
        · rintro ⟨i, hi3, hmin, hpi, hc, hm⟩
          have hi2 : i = 2 := by
            interval_cases i
            · exact absurd hpi h0
            · exact absurd hpi h1
            · rfl
          subst hi2
          rw [hc, hm]
      · rw [if_neg h2]
        constructor
        · intro h
          exact CornerResult.noConfusion h
        · rintro ⟨i, hi3, hmin, hpi, hc, hm⟩
          interval_cases i
          · exact absurd hpi h0
          · exact absurd hpi h1
          · exact absurd hpi h2

/-- C2: for every 5-vertex polygon with exactly three short edges, an edge
index is collected as short exactly when its Euclidean length is below 80;
and the resolver returns `(corner, axisEndpoint)` exactly when some step
`i` of the cyclic (mod 3) pair scan is the first whose two short edges
share an endpoint under exact coordinate equality, the corner being that
shared point and the axis endpoint the integer-averaged midpoint of the
third short edge, two positions ahead cyclically — a first-match policy. -/
theorem corner_resolver_first_match (poly : List Point) (h5 : poly.length = 5)
    (h3 : (matchingSides poly).length = 3) :
    (∀ e : Nat, e ∈ matchingSides poly ↔ e < 5 ∧
        Real.sqrt ((sqDist (edgeFst poly e) (edgeSnd poly e) : Int) : ℝ) < 80) ∧
    ∀ cpt mpt : Point, resolveCorner poly = .found cpt mpt ↔
      ∃ i, i < 3 ∧ (∀ j, j < i → ¬pairShares poly (matchingSides poly) j) ∧
        pairShares poly (matchingSides poly) i ∧
        cpt = sharedPoint poly (matchingSides poly) i ∧
        mpt = thirdMid poly (matchingSides poly) i := by
  constructor
  · intro e
    have hsq : ∀ d : Int, Real.sqrt (d : ℝ) < 80 ↔ d < 6400 := by
      intro d
      rw [Real.sqrt_lt' (by norm_num : (0 : ℝ) < 80)]
      constructor
      · intro h
        exact_mod_cast h
      · intro h
        rw [show ((80 : ℝ)) ^ 2 = ((6400 : Int) : ℝ) by norm_num]
        exact_mod_cast h
    unfold matchingSides
    rw [List.mem_filter, List.mem_range, h5, decide_eq_true_eq, hsq]
  · intro cpt mpt
    exact resolveCorner_found_iff poly h3 cpt mpt

/-- A concrete marker-like pentagon: three consecutive short edges, the
first two sharing vertex `(10, 0)`, the third running from `(20, 0)` to
`(30, 0)`. -/
def pentaWitness : List Point := [(0, 0), (10, 0), (20, 0), (30, 0), (15, 100)]

/-- C2 (witness): the first-match characterization instantiated at the
concrete pentagon, whose resolved corner is `(10, 0)` and axis endpoint
`(25, 0)`. -/
theorem corner_resolver_first_match_witness :
    resolveCorner pentaWitness = .found (10, 0) (25, 0) ∧
    ∃ i, i < 3 ∧ (∀ j, j < i → ¬pairShares pentaWitness (matchingSides pentaWitness) j) ∧
      pairShares pentaWitness (matchingSides pentaWitness) i ∧
      ((10 : Int), (0 : Int)) = sharedPoint pentaWitness (matchingSides pentaWitness) i ∧
      ((25 : Int), (0 : Int)) = thirdMid pentaWitness (matchingSides pentaWitness) i :=
  ⟨by decide,
   ((corner_resolver_first_match pentaWitness (by decide) (by decide)).2
     (10, 0) (25, 0)).mp (by decide)⟩

end MarkerDetector
